import Mathlib

/-!
Verification of the identity/reference-stability subsystem of the
EmailMaster CLI (src/utils/emailIdManager.js and the fetch pipeline in
src/utils/emailFetcher.js).

The JavaScript modules are shallowly embedded: the persisted JSON files
(`email_id_mapping.json`, `emails.json`, `cache_metadata.json`) become
explicit state values threaded through the functions, and JavaScript
objects used as string-keyed dictionaries become association lists in
insertion order (matching JS object key enumeration for non-numeric
keys).  Asynchronous I/O is modelled by explicit state passing; a save
that fails is modelled as leaving the corresponding file unchanged and
aborting the operation with an error, matching the `throw error`
re-raises in the source.
-/

namespace EmailMaster

/-- An email record as produced by `parseMessage` and stored in
`emails.json`.  JavaScript objects are duck-typed; `uniqueId` and
`assignedIndex` are absent on freshly parsed records and present after
`updateEmailMapping`, hence `Option`.  The provider id can be absent on
synthetic records, hence `Option`; `date` is the millisecond timestamp
carried by the `Date` value.  The source fields `from` and `to` are
called `fromAddr` and `toAddr` here because both are reserved words in
Lean. -/
structure Email where
  id : Option String := none
  threadId : String := ""
  subject : String := ""
  fromAddr : String := ""
  toAddr : String := ""
  date : Int := 0
  body : String := ""
  snippet : String := ""
  uniqueId : Option String := none
  assignedIndex : Option Nat := none
deriving DecidableEq

/-- The persisted identity mapping (`email_id_mapping.json`).  The two
JS dictionary objects are association lists in insertion order. -/
structure Mapping where
  indexToId : List (Nat × String)
  idToIndex : List (String × Nat)
  nextIndex : Nat
deriving DecidableEq

/-- First-match lookup in a string-keyed association list, the model of
reading `obj[key]` on a JS object (`none` models `undefined`). -/
def lookupStr (l : List (String × Nat)) (k : String) : Option Nat :=
  match l with
  | [] => none
  | p :: rest => if p.1 = k then some p.2 else lookupStr rest k

/-- First-match lookup in a numeric-keyed association list. -/
def lookupNat (l : List (Nat × String)) (k : Nat) : Option String :=
  match l with
  | [] => none
  | p :: rest => if p.1 = k then some p.2 else lookupNat rest k

/-- The model of `obj[key] = v` on a string-keyed JS object: replace the
binding if the key is present, otherwise append it. -/
def setStr (l : List (String × Nat)) (k : String) (v : Nat) : List (String × Nat) :=
  match l with
  | [] => [(k, v)]
  | p :: rest => if p.1 = k then (k, v) :: rest else p :: setStr rest k v

/-- The model of `obj[key] = v` on a numeric-keyed JS object. -/
def setNat (l : List (Nat × String)) (k : Nat) (v : String) : List (Nat × String) :=
  match l with
  | [] => [(k, v)]
  | p :: rest => if p.1 = k then (k, v) :: rest else p :: setNat rest k v

/-- The hash input string built by `generateEmailId`:
`` `${email.from}|${email.subject}|${email.date}` ``. -/
def hashInput (email : Email) : String :=
  email.fromAddr ++ "|" ++ email.subject ++ "|" ++ toString email.date

/-- `generateEmailId` from src/utils/emailIdManager.js.  The parameter
`hash` abstracts the library call
`crypto.createHash("sha256").update(s).digest("hex")`, a pure function
from the input string to its hex digest; `.substring(0, 12)` is the
explicit `take 12`.  The guard `if (email.id)` is JS truthiness: both a
missing `id` and the empty string fall through to the hash. -/
def generateEmailId (hash : String → String) (email : Email) : String :=
  match email.id with
  | some mid => if mid = "" then (hash (hashInput email)).take 12 else mid
  | none => (hash (hashInput email)).take 12

/-- The mapping-file states `loadEmailIdMapping` can encounter: file
absent, file present but unreadable (the `catch` path), or readable
content. -/
inductive MappingFile where
  | missing
  | unreadable
  | ok (m : Mapping)
deriving DecidableEq

/-- The empty mapping returned for absent state. -/
def emptyMapping : Mapping := { indexToId := [], idToIndex := [], nextIndex := 1 }

/-- `loadEmailIdMapping` from src/utils/emailIdManager.js: a missing
file returns the empty mapping, and a read error is caught and also
returns the empty mapping. -/
def loadEmailIdMapping (file : MappingFile) : Mapping :=
  match file with
  | .missing => emptyMapping
  | .unreadable => emptyMapping
  | .ok m => m

/-- The new-email branch of `updateEmailMapping`:
`mapping.indexToId[newIndex] = emailId; mapping.idToIndex[emailId] =
newIndex; mapping.nextIndex++` with `newIndex = mapping.nextIndex`. -/
def Mapping.assignId (m : Mapping) (emailId : String) : Mapping :=
  { indexToId := setNat m.indexToId m.nextIndex emailId
    idToIndex := setStr m.idToIndex emailId m.nextIndex
    nextIndex := m.nextIndex + 1 }

/-- `updateEmailMapping` from src/utils/emailIdManager.js, with the
loaded mapping passed in and the saved mapping returned (the load/save
calls are modelled at the call sites).  The `forEach` loop threads the
mutable `mapping` object through the list.  The guard
`if (mapping.idToIndex[emailId])` is JS truthiness on a number:
`undefined` and `0` both take the new-assignment branch. -/
def updateEmailMapping (hash : String → String) :
    List Email → Mapping → List Email × Mapping
  | [], mapping => ([], mapping)
  | email :: rest, mapping =>
    let emailId := generateEmailId hash email
    match lookupStr mapping.idToIndex emailId with
    | some i =>
      if i = 0 then
        let r := updateEmailMapping hash rest (mapping.assignId emailId)
        ({ email with uniqueId := some emailId,
                      assignedIndex := some mapping.nextIndex } :: r.1, r.2)
      else
        let r := updateEmailMapping hash rest mapping
        ({ email with uniqueId := some emailId,
                      assignedIndex := some i } :: r.1, r.2)
    | none =>
      let r := updateEmailMapping hash rest (mapping.assignId emailId)
      ({ email with uniqueId := some emailId,
                    assignedIndex := some mapping.nextIndex } :: r.1, r.2)

/-- Well-formedness of a persisted mapping: the counter is at least 1
and every assigned index is at least 1 (so the JS truthiness test on
`mapping.idToIndex[emailId]` coincides with presence). -/
def Mapping.WF (m : Mapping) : Prop :=
  1 ≤ m.nextIndex ∧ ∀ p ∈ m.idToIndex, 1 ≤ p.2

instance (m : Mapping) : Decidable m.WF := by
  unfold Mapping.WF; infer_instance

/-- Mappings reachable from the empty mapping (`nextIndex = 1`) by any
sequence of `updateEmailMapping` calls, the states the persisted
`email_id_mapping.json` can actually be in when only this program
writes it. -/
inductive Reachable : Mapping → Prop where
  | init : Reachable emptyMapping
  | step (hash : String → String) (emails : List Email) (m : Mapping) :
      Reachable m → Reachable (updateEmailMapping hash emails m).2

/-! ### Association-list lemmas -/

theorem lookupStr_mem {l : List (String × Nat)} {k : String} {v : Nat}
    (h : lookupStr l k = some v) : (k, v) ∈ l := by
  induction l with
  | nil => simp [lookupStr] at h
  | cons p rest ih =>
    rw [lookupStr] at h
    by_cases hp : p.1 = k
    · rw [if_pos hp] at h
      injection h with hv
      have hkv : (k, v) = p := by rw [← hp, ← hv]
      rw [hkv]
      exact List.mem_cons_self _ _
    · rw [if_neg hp] at h
      exact List.mem_cons_of_mem _ (ih h)

theorem lookupNat_mem {l : List (Nat × String)} {k : Nat} {v : String}
    (h : lookupNat l k = some v) : (k, v) ∈ l := by
  induction l with
  | nil => simp [lookupNat] at h
  | cons p rest ih =>
    rw [lookupNat] at h
    by_cases hp : p.1 = k
    · rw [if_pos hp] at h
      injection h with hv
      have hkv : (k, v) = p := by rw [← hp, ← hv]
      rw [hkv]
      exact List.mem_cons_self _ _
    · rw [if_neg hp] at h
      exact List.mem_cons_of_mem _ (ih h)

theorem lookupStr_set (l : List (String × Nat)) (k : String) (v : Nat) (k' : String) :
    lookupStr (setStr l k v) k' = if k = k' then some v else lookupStr l k' := by
  induction l with
  | nil => rfl
  | cons p rest ih =>
    rw [setStr]
    by_cases hp : p.1 = k
    · rw [if_pos hp, lookupStr, lookupStr]
      by_cases hkk : k = k'
      · rw [if_pos hkk, if_pos hkk]
      · rw [if_neg hkk, if_neg hkk, if_neg (fun hh => hkk (hp ▸ hh))]
    · rw [if_neg hp, lookupStr, lookupStr]
      by_cases hq : p.1 = k'
      · simp only [if_pos hq]
        rw [if_neg (fun hkk => hp (hq.trans hkk.symm))]
      · simp only [if_neg hq]
        exact ih

theorem lookupNat_set (l : List (Nat × String)) (k : Nat) (v : String) (k' : Nat) :
    lookupNat (setNat l k v) k' = if k = k' then some v else lookupNat l k' := by
  induction l with
  | nil => rfl
  | cons p rest ih =>
    rw [setNat]
    by_cases hp : p.1 = k
    · rw [if_pos hp, lookupNat, lookupNat]
      by_cases hkk : k = k'
      · rw [if_pos hkk, if_pos hkk]
      · rw [if_neg hkk, if_neg hkk, if_neg (fun hh => hkk (hp ▸ hh))]
    · rw [if_neg hp, lookupNat, lookupNat]
      by_cases hq : p.1 = k'
      · simp only [if_pos hq]
        rw [if_neg (fun hkk => hp (hq.trans hkk.symm))]
      · simp only [if_neg hq]
        exact ih

theorem mem_setStr {l : List (String × Nat)} {k : String} {v : Nat} {q : String × Nat}
    (h : q ∈ setStr l k v) : q ∈ l ∨ q = (k, v) := by
  induction l with
  | nil =>
    rw [setStr] at h
    right
    exact List.mem_singleton.mp h
  | cons p rest ih =>
    rw [setStr] at h
    by_cases hp : p.1 = k
    · rw [if_pos hp] at h
      rcases List.mem_cons.mp h with h' | h'
      · right; exact h'
      · left; exact List.mem_cons_of_mem _ h'
    · rw [if_neg hp] at h
      rcases List.mem_cons.mp h with h' | h'
      · left; rw [h']; exact List.mem_cons_self _ _
      · rcases ih h' with h2 | h2
        · left; exact List.mem_cons_of_mem _ h2
        · right; exact h2

theorem mem_setNat {l : List (Nat × String)} {k : Nat} {v : String} {q : Nat × String}
    (h : q ∈ setNat l k v) : q ∈ l ∨ q = (k, v) := by
  induction l with
  | nil =>
    rw [setNat] at h
    right
    exact List.mem_singleton.mp h
  | cons p rest ih =>
    rw [setNat] at h
    by_cases hp : p.1 = k
    · rw [if_pos hp] at h
      rcases List.mem_cons.mp h with h' | h'
      · right; exact h'
      · left; exact List.mem_cons_of_mem _ h'
    · rw [if_neg hp] at h
      rcases List.mem_cons.mp h with h' | h'
      · left; rw [h']; exact List.mem_cons_self _ _
      · rcases ih h' with h2 | h2
        · left; exact List.mem_cons_of_mem _ h2
        · right; exact h2

/-! ### Structural lemmas about `updateEmailMapping` -/

theorem generateEmailId_irrel (hash : String → String) (e : Email)
    (u : Option String) (a : Option Nat) :
    generateEmailId hash { e with uniqueId := u, assignedIndex := a } =
      generateEmailId hash e := rfl

theorem Email.update_eq_self {e : Email} {u : String} {n : Nat}
    (hu : e.uniqueId = some u) (hn : e.assignedIndex = some n) :
    ({ e with uniqueId := some u, assignedIndex := some n } : Email) = e := by
  cases e with
  | mk i1 t1 s1 f1 a1 d1 b1 sn1 uid aidx =>
    change uid = some u at hu
    change aidx = some n at hn
    rw [hu, hn]

theorem Mapping.WF_assignId {m : Mapping} (h : m.WF) (emailId : String) :
    (m.assignId emailId).WF := by
  refine ⟨Nat.le_succ_of_le h.1, ?_⟩
  intro p hp
  rcases mem_setStr hp with h' | h'
  · exact h.2 p h'
  · rw [h']
    exact h.1

theorem updateEmailMapping_wf (hash : String → String) (l : List Email) :
    ∀ m : Mapping, m.WF → (updateEmailMapping hash l m).2.WF := by
  induction l with
  | nil => intro m h; exact h
  | cons email rest ih =>
    intro m h
    simp only [updateEmailMapping]
    rcases hcase : lookupStr m.idToIndex (generateEmailId hash email) with _ | j
    · simp only [hcase]
      exact ih _ (Mapping.WF_assignId h _)
    · simp only [hcase]
      by_cases hj : j = 0
      · simp only [if_pos hj]
        exact ih _ (Mapping.WF_assignId h _)
      · simp only [if_neg hj]
        exact ih m h

theorem updateEmailMapping_mono (hash : String → String) (l : List Email) :
    ∀ m : Mapping, m.WF → ∀ k i, lookupStr m.idToIndex k = some i →
      lookupStr (updateEmailMapping hash l m).2.idToIndex k = some i := by
  induction l with
  | nil => intro m _ k i h; exact h
  | cons email rest ih =>
    intro m hWF k i h
    simp only [updateEmailMapping]
    rcases hcase : lookupStr m.idToIndex (generateEmailId hash email) with _ | j
    · simp only [hcase]
      apply ih _ (Mapping.WF_assignId hWF _) k i
      show lookupStr (setStr m.idToIndex (generateEmailId hash email) m.nextIndex) k = some i
      rw [lookupStr_set]
      have hne : generateEmailId hash email ≠ k := by
        intro hkk
        rw [hkk, h] at hcase
        exact Option.noConfusion hcase
      rw [if_neg hne]
      exact h
    · simp only [hcase]
      by_cases hj : j = 0
      · exfalso
        have h2 : 1 ≤ j := hWF.2 _ (lookupStr_mem hcase)
        omega
      · simp only [if_neg hj]
        exact ih m hWF k i h

theorem updateEmailMapping_out_spec (hash : String → String) (l : List Email) :
    ∀ m : Mapping, m.WF →
      ∀ r ∈ (updateEmailMapping hash l m).1,
        r.uniqueId = some (generateEmailId hash r) ∧
        ∃ n, r.assignedIndex = some n ∧ 1 ≤ n ∧
          lookupStr (updateEmailMapping hash l m).2.idToIndex (generateEmailId hash r) =
            some n := by
  induction l with
  | nil =>
    intro m _ r hr
    simp [updateEmailMapping] at hr
  | cons email rest ih =>
    intro m hWF r hr
    simp only [updateEmailMapping] at hr ⊢
    rcases hcase : lookupStr m.idToIndex (generateEmailId hash email) with _ | j
    · simp only [hcase] at hr ⊢
      rcases List.mem_cons.mp hr with hre | hre
      · subst hre
        refine ⟨rfl, m.nextIndex, rfl, hWF.1, ?_⟩
        rw [generateEmailId_irrel]
        apply updateEmailMapping_mono hash rest _ (Mapping.WF_assignId hWF _)
        show lookupStr (setStr m.idToIndex (generateEmailId hash email) m.nextIndex)
          (generateEmailId hash email) = some m.nextIndex
        rw [lookupStr_set, if_pos rfl]
      · exact ih _ (Mapping.WF_assignId hWF _) r hre
    · simp only [hcase] at hr ⊢
      by_cases hj : j = 0
      · exfalso
        have h2 : 1 ≤ j := hWF.2 _ (lookupStr_mem hcase)
        omega
      · simp only [if_neg hj] at hr ⊢
        rcases List.mem_cons.mp hr with hre | hre
        · subst hre
          refine ⟨rfl, j, rfl, ?_, ?_⟩
          · have := hWF.2 _ (lookupStr_mem hcase)
            omega
          · rw [generateEmailId_irrel]
            exact updateEmailMapping_mono hash rest m hWF _ _ hcase
        · exact ih m hWF r hre

theorem updateEmailMapping_mem_out (hash : String → String) (l : List Email) :
    ∀ m : Mapping, ∀ e ∈ l,
      ∃ n, ({ e with
                uniqueId := some (generateEmailId hash e)
                assignedIndex := some n } : Email) ∈ (updateEmailMapping hash l m).1 := by
  induction l with
  | nil => intro m e he; simp at he
  | cons email rest ih =>
    intro m e he
    simp only [updateEmailMapping]
    rcases hcase : lookupStr m.idToIndex (generateEmailId hash email) with _ | j
    · simp only [hcase]
      rcases List.mem_cons.mp he with he | he
      · subst he
        exact ⟨m.nextIndex, List.mem_cons_self _ _⟩
      · obtain ⟨n, hn⟩ := ih _ e he
        exact ⟨n, List.mem_cons_of_mem _ hn⟩
    · simp only [hcase]
      by_cases hj : j = 0
      · simp only [if_pos hj]
        rcases List.mem_cons.mp he with he | he
        · subst he
          exact ⟨m.nextIndex, List.mem_cons_self _ _⟩
        · obtain ⟨n, hn⟩ := ih _ e he
          exact ⟨n, List.mem_cons_of_mem _ hn⟩
      · simp only [if_neg hj]
        rcases List.mem_cons.mp he with he | he
        · subst he
          exact ⟨j, List.mem_cons_self _ _⟩
        · obtain ⟨n, hn⟩ := ih m e he
          exact ⟨n, List.mem_cons_of_mem _ hn⟩

theorem updateEmailMapping_fixed (hash : String → String) (rs : List Email) :
    ∀ m : Mapping,
      (∀ r ∈ rs, r.uniqueId = some (generateEmailId hash r) ∧
        ∃ n, r.assignedIndex = some n ∧ 1 ≤ n ∧
          lookupStr m.idToIndex (generateEmailId hash r) = some n) →
      updateEmailMapping hash rs m = (rs, m) := by
  induction rs with
  | nil => intro m _; rfl
  | cons r rest ih =>
    intro m hall
    obtain ⟨hu, n, hn, hn1, hlook⟩ := hall r (List.mem_cons_self _ _)
    simp only [updateEmailMapping, hlook]
    rw [if_neg (by omega : ¬ n = 0)]
    rw [ih m (fun x hx => hall x (List.mem_cons_of_mem _ hx))]
    rw [Email.update_eq_self hu hn]

/-! ### The bidirectional mapping invariant -/

/-- The full invariant on the persisted mapping: counter at least 1,
`indexToId` and `idToIndex` mutually inverse, and every binding on both
sides between 1 and `nextIndex - 1`. -/
def Mapping.Inv (m : Mapping) : Prop :=
  1 ≤ m.nextIndex ∧
  (∀ k i, lookupStr m.idToIndex k = some i → lookupNat m.indexToId i = some k) ∧
  (∀ i k, lookupNat m.indexToId i = some k → lookupStr m.idToIndex k = some i) ∧
  (∀ p ∈ m.idToIndex, 1 ≤ p.2 ∧ p.2 < m.nextIndex) ∧
  (∀ q ∈ m.indexToId, 1 ≤ q.1 ∧ q.1 < m.nextIndex)

theorem Mapping.Inv.toWF {m : Mapping} (h : m.Inv) : m.WF :=
  ⟨h.1, fun p hp => (h.2.2.2.1 p hp).1⟩

theorem Mapping.Inv_assignId {m : Mapping} (hInv : m.Inv) (emailId : String)
    (hnew : lookupStr m.idToIndex emailId = none) : (m.assignId emailId).Inv := by
  obtain ⟨h1, h2, h3, h4, h5⟩ := hInv
  refine ⟨Nat.le_succ_of_le h1, ?_, ?_, ?_, ?_⟩
  · intro k i hk
    simp only [Mapping.assignId] at hk ⊢
    rw [lookupStr_set] at hk
    rw [lookupNat_set]
    by_cases hke : emailId = k
    · rw [if_pos hke] at hk
      injection hk with hk
      rw [if_pos hk, hke]
    · rw [if_neg hke] at hk
      have hi : i < m.nextIndex := (h4 _ (lookupStr_mem hk)).2
      rw [if_neg (by omega : ¬ m.nextIndex = i)]
      exact h2 k i hk
  · intro i k hk
    simp only [Mapping.assignId] at hk ⊢
    rw [lookupNat_set] at hk
    rw [lookupStr_set]
    by_cases hie : m.nextIndex = i
    · rw [if_pos hie] at hk
      injection hk with hk
      rw [if_pos hk, hie]
    · rw [if_neg hie] at hk
      have hkk := h3 i k hk
      by_cases hke : emailId = k
      · rw [← hke, hnew] at hkk
        exact Option.noConfusion hkk
      · rw [if_neg hke]
        exact hkk
  · intro p hp
    simp only [Mapping.assignId] at hp ⊢
    rcases mem_setStr hp with h' | h'
    · have := h4 p h'
      omega
    · rw [h']
      simp only []
      omega
  · intro q hq
    simp only [Mapping.assignId] at hq ⊢
    rcases mem_setNat hq with h' | h'
    · have := h5 q h'
      omega
    · rw [h']
      simp only []
      omega

theorem updateEmailMapping_inv (hash : String → String) (l : List Email) :
    ∀ m : Mapping, m.Inv → (updateEmailMapping hash l m).2.Inv := by
  induction l with
  | nil => intro m h; exact h
  | cons email rest ih =>
    intro m h
    simp only [updateEmailMapping]
    rcases hcase : lookupStr m.idToIndex (generateEmailId hash email) with _ | j
    · simp only [hcase]
      exact ih _ (Mapping.Inv_assignId h _ hcase)
    · simp only [hcase]
      by_cases hj : j = 0
      · exfalso
        have h2 : 1 ≤ j := (h.2.2.2.1 _ (lookupStr_mem hcase)).1
        omega
      · simp only [if_neg hj]
        exact ih m h

theorem reachable_inv {m : Mapping} (h : Reachable m) : m.Inv := by
  induction h with
  | init =>
    refine ⟨Nat.le_refl 1, ?_, ?_, ?_, ?_⟩
    · intro k i hk
      simp [emptyMapping, lookupStr] at hk
    · intro i k hk
      simp [emptyMapping, lookupNat] at hk
    · intro p hp
      simp [emptyMapping] at hp
    · intro q hq
      simp [emptyMapping] at hq
  | step hash l m _ ih => exact updateEmailMapping_inv hash l m ih

/-- The record produced for one input email by `updateEmailMapping`:
the spread `{...email, uniqueId: emailId, assignedIndex: n}`. -/
def tagged (e : Email) (u : Option String) (n : Nat) : Email :=
  { e with uniqueId := u, assignedIndex := some n }

theorem generateEmailId_tagged (hash : String → String) (e : Email)
    (u : Option String) (n : Nat) :
    generateEmailId hash (tagged e u n) = generateEmailId hash e := rfl

/-- C1.  Index stability: for any email `e`, running `updateEmailMapping`
twice with the mapping state persisted between the calls, on input lists
that both contain `e`, annotates `e` with the same `assignedIndex` both
times — there is a single index `n` such that the annotated record for
`e` appears with `n` in both outputs, and any annotated records for `e`
in the two outputs carry equal indices.  Once assigned, the index for a
uniqueId never changes across repeated calls that re-encounter it. -/
theorem claim_C1 (hash : String → String) (m₀ : Mapping) (l₁ l₂ : List Email) (e : Email)
    (hWF : m₀.WF) (h₁ : e ∈ l₁) (h₂ : e ∈ l₂) :
    (∃ n, tagged e (some (generateEmailId hash e)) n ∈ (updateEmailMapping hash l₁ m₀).1 ∧
      tagged e (some (generateEmailId hash e)) n ∈
        (updateEmailMapping hash l₂ (updateEmailMapping hash l₁ m₀).2).1) ∧
    (∀ u₁ n₁ u₂ n₂,
      tagged e u₁ n₁ ∈ (updateEmailMapping hash l₁ m₀).1 →
      tagged e u₂ n₂ ∈ (updateEmailMapping hash l₂ (updateEmailMapping hash l₁ m₀).2).1 →
      n₁ = n₂) := by
  have hWF1 : (updateEmailMapping hash l₁ m₀).2.WF := updateEmailMapping_wf hash l₁ m₀ hWF
  have key₁ : ∀ u n, tagged e u n ∈ (updateEmailMapping hash l₁ m₀).1 →
      lookupStr (updateEmailMapping hash l₁ m₀).2.idToIndex (generateEmailId hash e) = some n := by
    intro u n hmem
    obtain ⟨-, n', hidx, -, hlook⟩ := updateEmailMapping_out_spec hash l₁ m₀ hWF _ hmem
    have hn' : n' = n := (Option.some.inj hidx).symm
    rw [generateEmailId_tagged] at hlook
    rw [← hn']
    exact hlook
  have key₂ : ∀ u n, tagged e u n ∈
      (updateEmailMapping hash l₂ (updateEmailMapping hash l₁ m₀).2).1 →
      lookupStr (updateEmailMapping hash l₂ (updateEmailMapping hash l₁ m₀).2).2.idToIndex
        (generateEmailId hash e) = some n := by
    intro u n hmem
    obtain ⟨-, n', hidx, -, hlook⟩ :=
      updateEmailMapping_out_spec hash l₂ _ hWF1 _ hmem
    have hn' : n' = n := (Option.some.inj hidx).symm
    rw [generateEmailId_tagged] at hlook
    rw [← hn']
    exact hlook
  constructor
  · obtain ⟨n, hn⟩ := updateEmailMapping_mem_out hash l₁ m₀ e h₁
    obtain ⟨n₂, hn₂⟩ := updateEmailMapping_mem_out hash l₂ _ e h₂
    have hl1 := key₁ _ _ hn
    have hl2 := key₂ _ _ hn₂
    have hmono := updateEmailMapping_mono hash l₂ _ hWF1 _ _ hl1
    have : n₂ = n := by
      rw [hmono] at hl2
      exact (Option.some.inj hl2).symm
    refine ⟨n, hn, ?_⟩
    rw [← this]
    exact hn₂
  · intro u₁ n₁ u₂ n₂ hm₁ hm₂
    have hl1 := key₁ _ _ hm₁
    have hl2 := key₂ _ _ hm₂
    have hmono := updateEmailMapping_mono hash l₂ _ hWF1 _ _ hl1
    rw [hmono] at hl2
    exact Option.some.inj hl2

/-- Witness for C1 at a concrete input: the empty mapping is
well-formed, the email is in both singleton input lists, and the
conclusion holds there. -/
theorem claim_C1_witness :
    emptyMapping.WF ∧
    ((∃ n, tagged { id := some "m1" } (some (generateEmailId (fun s => s) { id := some "m1" })) n ∈
        (updateEmailMapping (fun s => s) [{ id := some "m1" }] emptyMapping).1 ∧
      tagged { id := some "m1" } (some (generateEmailId (fun s => s) { id := some "m1" })) n ∈
        (updateEmailMapping (fun s => s) [{ id := some "m1" }]
          (updateEmailMapping (fun s => s) [{ id := some "m1" }] emptyMapping).2).1) ∧
    (∀ u₁ n₁ u₂ n₂,
      tagged { id := some "m1" } u₁ n₁ ∈
        (updateEmailMapping (fun s => s) [{ id := some "m1" }] emptyMapping).1 →
      tagged { id := some "m1" } u₂ n₂ ∈
        (updateEmailMapping (fun s => s) [{ id := some "m1" }]
          (updateEmailMapping (fun s => s) [{ id := some "m1" }] emptyMapping).2).1 →
      n₁ = n₂)) :=
  ⟨by decide,
   claim_C1 (fun s => s) emptyMapping [{ id := some "m1" }] [{ id := some "m1" }]
     { id := some "m1" } (by decide) (List.mem_singleton.mpr rfl) (List.mem_singleton.mpr rfl)⟩

/-- C2.  Mapping invariant: starting from the empty mapping
(`nextIndex = 1`), after any sequence of `updateEmailMapping` calls,
`indexToId` and `idToIndex` are mutual inverses, no two distinct
uniqueIds map to the same assignedIndex, and every assigned index is
strictly less than `nextIndex` (indices are never reused). -/
theorem claim_C2 (m : Mapping) (h : Reachable m) :
    (∀ k i, lookupStr m.idToIndex k = some i → lookupNat m.indexToId i = some k) ∧
    (∀ i k, lookupNat m.indexToId i = some k → lookupStr m.idToIndex k = some i) ∧
    (∀ k₁ k₂ i, lookupStr m.idToIndex k₁ = some i → lookupStr m.idToIndex k₂ = some i →
      k₁ = k₂) ∧
    (∀ p ∈ m.idToIndex, p.2 < m.nextIndex) := by
  obtain ⟨h1, h2, h3, h4, h5⟩ := reachable_inv h
  refine ⟨h2, h3, ?_, fun p hp => (h4 p hp).2⟩
  intro k₁ k₂ i hk₁ hk₂
  have e₁ := h2 k₁ i hk₁
  have e₂ := h2 k₂ i hk₂
  rw [e₁] at e₂
  exact Option.some.inj e₂

/-- Witness for C2 at a concrete reachable mapping: one
`updateEmailMapping` step from the empty mapping. -/
theorem claim_C2_witness :
    (∀ k i, lookupStr (updateEmailMapping (fun s => s) [{ id := some "m1" }] emptyMapping).2.idToIndex k = some i →
      lookupNat (updateEmailMapping (fun s => s) [{ id := some "m1" }] emptyMapping).2.indexToId i = some k) ∧
    (∀ i k, lookupNat (updateEmailMapping (fun s => s) [{ id := some "m1" }] emptyMapping).2.indexToId i = some k →
      lookupStr (updateEmailMapping (fun s => s) [{ id := some "m1" }] emptyMapping).2.idToIndex k = some i) ∧
    (∀ k₁ k₂ i, lookupStr (updateEmailMapping (fun s => s) [{ id := some "m1" }] emptyMapping).2.idToIndex k₁ = some i →
      lookupStr (updateEmailMapping (fun s => s) [{ id := some "m1" }] emptyMapping).2.idToIndex k₂ = some i →
      k₁ = k₂) ∧
    (∀ p ∈ (updateEmailMapping (fun s => s) [{ id := some "m1" }] emptyMapping).2.idToIndex,
      p.2 < (updateEmailMapping (fun s => s) [{ id := some "m1" }] emptyMapping).2.nextIndex) :=
  claim_C2 _ (Reachable.step (fun s => s) [{ id := some "m1" }] emptyMapping Reachable.init)

/-- C3.  Unique-ID generation is deterministic: `generateEmailId`
returns the provider-native id verbatim when the email carries a
(truthy) one; otherwise it returns the hash of the concatenated
sender, subject and date fields truncated to 12 characters (the hash
parameter stands for the SHA-256 hex digest), so two records that agree
on `from`, `subject` and `date` receive the identical fallback id. -/
theorem claim_C3 :
    (∀ (hash : String → String) (e : Email) (mid : String),
      e.id = some mid → mid ≠ "" → generateEmailId hash e = mid) ∧
    (∀ (hash : String → String) (e : Email),
      e.id = none ∨ e.id = some "" →
      generateEmailId hash e = (hash (hashInput e)).take 12) ∧
    (∀ (hash : String → String) (e₁ e₂ : Email),
      e₁.id = none ∨ e₁.id = some "" →
      e₂.id = none ∨ e₂.id = some "" →
      e₁.fromAddr = e₂.fromAddr → e₁.subject = e₂.subject → e₁.date = e₂.date →
      generateEmailId hash e₁ = generateEmailId hash e₂) := by
  have hfall : ∀ (hash : String → String) (e : Email),
      e.id = none ∨ e.id = some "" →
      generateEmailId hash e = (hash (hashInput e)).take 12 := by
    intro hash e he
    rcases he with he | he <;> rw [generateEmailId, he]
    simp
  refine ⟨?_, hfall, ?_⟩
  · intro hash e mid hmid hne
    rw [generateEmailId, hmid]
    simp [hne]
  · intro hash e₁ e₂ he₁ he₂ hf hs hd
    rw [hfall hash e₁ he₁, hfall hash e₂ he₂]
    have : hashInput e₁ = hashInput e₂ := by
      rw [hashInput, hashInput, hf, hs, hd]
    rw [this]

/-- Witness for C3 at concrete inputs: a record with a truthy provider
id keeps it verbatim, and two id-less records agreeing on sender,
subject and date get the same fallback id. -/
theorem claim_C3_witness :
    (({ id := some "m1" } : Email).id = some "m1" ∧ "m1" ≠ "" ∧
      generateEmailId (fun s => s) { id := some "m1" } = "m1") ∧
    (({ fromAddr := "a", subject := "s", date := 7 } : Email).id = none ∧
      generateEmailId (fun s => s) { fromAddr := "a", subject := "s", date := 7 } =
        generateEmailId (fun s => s) { fromAddr := "a", subject := "s", date := 7, body := "b" }) :=
  ⟨⟨rfl, by decide, claim_C3.1 (fun s => s) { id := some "m1" } "m1" rfl (by decide)⟩,
   ⟨rfl, claim_C3.2.2 (fun s => s) { fromAddr := "a", subject := "s", date := 7 }
      { fromAddr := "a", subject := "s", date := 7, body := "b" }
      (Or.inl rfl) (Or.inl rfl) rfl rfl rfl⟩⟩

/-- C8.  State-corruption tolerant load: if the persisted mapping file
is missing or unreadable, `loadEmailIdMapping` returns the empty
mapping `indexToId = {}, idToIndex = {}, nextIndex = 1` rather than
failing, so every operation that loads the mapping starts from a
well-defined state (the load is total: it returns the empty mapping or
the file's content). -/
theorem claim_C8 :
    loadEmailIdMapping .missing = { indexToId := [], idToIndex := [], nextIndex := 1 } ∧
    loadEmailIdMapping .unreadable = { indexToId := [], idToIndex := [], nextIndex := 1 } ∧
    (∀ f : MappingFile,
      loadEmailIdMapping f = emptyMapping ∨ ∃ m, f = .ok m ∧ loadEmailIdMapping f = m) := by
  refine ⟨rfl, rfl, ?_⟩
  intro f
  cases f with
  | missing => left; rfl
  | unreadable => left; rfl
  | ok m => right; exact ⟨m, rfl, rfl⟩

/-! ### The JavaScript numeric conversions used by the resolver

`findEmailByIdentifier` decides "is this token an index?" with
`!isNaN(identifier) && Number.isInteger(Number(identifier))` and then
reads the index with `parseInt(identifier, 10)`.  Both library
functions are modelled below on exact integers. -/

/-- JS whitespace accepted by `Number` and `parseInt` (space, tab and
line terminators; the exotic Unicode space characters are omitted). -/
def isJsWhitespace (c : Char) : Bool :=
  c = ' ' || c = '\t' || c = '\n' || c = '\r' || c = '\x0b' || c = '\x0c'

/-- Both-ends trim used by `Number(string)`. -/
def jsTrim (s : String) : List Char :=
  ((s.toList.dropWhile isJsWhitespace).reverse.dropWhile isJsWhitespace).reverse

/-- Value of a decimal digit string. -/
def decValue (cs : List Char) : Nat :=
  cs.foldl (fun a c => a * 10 + (c.toNat - '0'.toNat)) 0

def allDecDigits (cs : List Char) : Bool := cs.all (·.isDigit)

def isHexDigitCh (c : Char) : Bool :=
  c.isDigit || ('a' ≤ c && c ≤ 'f') || ('A' ≤ c && c ≤ 'F')

def hexDigitVal (c : Char) : Nat :=
  if c.isDigit then c.toNat - '0'.toNat
  else if 'a' ≤ c && c ≤ 'f' then c.toNat - 'a'.toNat + 10
  else c.toNat - 'A'.toNat + 10

def hexValue (cs : List Char) : Nat :=
  cs.foldl (fun a c => a * 16 + hexDigitVal c) 0

def isOctDigitCh (c : Char) : Bool := '0' ≤ c && c ≤ '7'

def octValue (cs : List Char) : Nat :=
  cs.foldl (fun a c => a * 8 + (c.toNat - '0'.toNat)) 0

def isBinDigitCh (c : Char) : Bool := c = '0' || c = '1'

def binValue (cs : List Char) : Nat :=
  cs.foldl (fun a c => a * 2 + (c.toNat - '0'.toNat)) 0

/-- Split at the first exponent mark `e`/`E`. -/
def splitAtExpMark : List Char → List Char × Option (List Char)
  | [] => ([], none)
  | c :: rest =>
    if c = 'e' || c = 'E' then ([], some rest)
    else
      let r := splitAtExpMark rest
      (c :: r.1, r.2)

/-- Split at the first decimal point. -/
def splitAtDot : List Char → List Char × Option (List Char)
  | [] => ([], none)
  | c :: rest =>
    if c = '.' then ([], some rest)
    else
      let r := splitAtDot rest
      (c :: r.1, r.2)

/-- A signed decimal-digit run (the exponent of a numeric literal). -/
def parseSignedDigits (cs : List Char) : Option Int :=
  match cs with
  | '+' :: ds => if !ds.isEmpty && allDecDigits ds then some (decValue ds) else none
  | '-' :: ds => if !ds.isEmpty && allDecDigits ds then some (-(decValue ds : Int)) else none
  | ds => if !ds.isEmpty && allDecDigits ds then some (decValue ds) else none

/-- The mantissa `Digits [. Digits]` of a decimal literal, returned as
the combined digit value and the number of fraction digits. -/
def parseMantissaDigits (mant : List Char) : Option (Nat × Nat) :=
  let r := splitAtDot mant
  match r.2 with
  | none => if !r.1.isEmpty && allDecDigits r.1 then some (decValue r.1, 0) else none
  | some fp =>
    if (!r.1.isEmpty || !fp.isEmpty) && allDecDigits r.1 && allDecDigits fp then
      some (decValue (r.1 ++ fp), fp.length)
    else none

/-- Exact value of an unsigned decimal numeric literal
`Digits [. Digits] [(e|E) [+|-] Digits]` when that value is an integer;
`none` when the literal is malformed or its value is not an integer. -/
def jsDecimalIntValue (body : List Char) : Option Int :=
  let me := splitAtExpMark body
  let exv : Option Int :=
    match me.2 with
    | none => some 0
    | some e => parseSignedDigits e
  match exv with
  | none => none
  | some ex =>
    match parseMantissaDigits me.1 with
    | none => none
    | some (d, f) =>
      let k : Int := (f : Int) - ex
      if d = 0 then some 0
      else if k ≤ 0 then some ((d : Int) * (10 : Int) ^ ((-k).toNat))
      else if d % (10 : Nat) ^ k.toNat = 0 then some (((d / (10 : Nat) ^ k.toNat : Nat) : Int))
      else none

/-- Signed decimal branch of `Number(string)`: `Infinity` is excluded
(not an integer), otherwise the exact decimal value. -/
def jsSignedDecimal (sign : Int) (body : List Char) : Option Int :=
  if body = "Infinity".toList then none
  else (jsDecimalIntValue body).map (fun v => sign * v)

/-- Models `Number(s)` restricted to the information the resolver
needs: `some v` exactly when `Number(s)` is a finite integer of value
`v`, computed on the literal's exact rational value.  IEEE-754
artifacts are not modelled: literals whose exact value is not an
integer but whose nearest double is one (17+ significant digits) and
literals overflowing to `Infinity` (magnitude beyond about 1.8e308)
diverge from JS here; the resolver claims do not depend on such
tokens. -/
def jsNumberIntValue (s : String) : Option Int :=
  match jsTrim s with
  | [] => some 0
  | '0' :: 'x' :: rest =>
    if !rest.isEmpty && rest.all isHexDigitCh then some (hexValue rest) else none
  | '0' :: 'X' :: rest =>
    if !rest.isEmpty && rest.all isHexDigitCh then some (hexValue rest) else none
  | '0' :: 'o' :: rest =>
    if !rest.isEmpty && rest.all isOctDigitCh then some (octValue rest) else none
  | '0' :: 'O' :: rest =>
    if !rest.isEmpty && rest.all isOctDigitCh then some (octValue rest) else none
  | '0' :: 'b' :: rest =>
    if !rest.isEmpty && rest.all isBinDigitCh then some (binValue rest) else none
  | '0' :: 'B' :: rest =>
    if !rest.isEmpty && rest.all isBinDigitCh then some (binValue rest) else none
  | cs =>
    match cs with
    | '+' :: body => jsSignedDecimal 1 body
    | '-' :: body => jsSignedDecimal (-1) body
    | body => jsSignedDecimal 1 body

/-- The guard `!isNaN(identifier) && Number.isInteger(Number(identifier))`
from `findEmailByIdentifier`. -/
def jsNumberInteger (s : String) : Bool := (jsNumberIntValue s).isSome

/-- `parseInt(s, 10)`: skip leading whitespace, optional sign, then the
longest run of leading decimal digits; `none` models `NaN` (no digits).
Values are exact integers (JS loses precision beyond 2^53, which
cannot affect comparisons with the small assigned indices). -/
def jsParseInt10 (s : String) : Option Int :=
  let cs := s.toList.dropWhile isJsWhitespace
  match cs with
  | '+' :: body =>
    let digs := body.takeWhile Char.isDigit
    if digs.isEmpty then none else some (decValue digs)
  | '-' :: body =>
    let digs := body.takeWhile Char.isDigit
    if digs.isEmpty then none else some (-(decValue digs : Int))
  | body =>
    let digs := body.takeWhile Char.isDigit
    if digs.isEmpty then none else some (decValue digs)

/-! ### The identifier resolver -/

/-- `a.startsWith(b)` on JS strings, computed on the character
lists. -/
def jsStartsWith (s p : String) : Bool := p.toList.isPrefixOf s.toList

/-- The result object `{email, index, uniqueId}` returned by
`findEmailByIdentifier` (`uniqueId` is read off the found email, which
in a malformed cache may lack it, hence `Option`). -/
structure FoundEmail where
  email : Email
  index : Int
  uniqueId : Option String
deriving DecidableEq

/-- The predicate `(email) => email.assignedIndex === targetIndex` with
`targetIndex : Option Int` (`none` models `NaN`, which `===` never
equals; a record without `assignedIndex` never matches a number). -/
def matchIndex (t : Option Int) (e : Email) : Bool :=
  match t, e.assignedIndex with
  | some v, some i => (i : Int) == v
  | _, _ => false

/-- The final lookup of `findEmailByIdentifier`:
`emails.find((email) => email.assignedIndex === targetIndex)` and the
construction of the result object. -/
def findByTarget (t : Option Int) (emails : List Email) : Option FoundEmail :=
  match emails.find? (matchIndex t) with
  | some email => some { email := email, index := t.getD 0, uniqueId := email.uniqueId }
  | none => none

/-- `findEmailByIdentifier` from src/utils/emailIdManager.js.  The
numeric test is `!isNaN(identifier) && Number.isInteger(Number(identifier))`
and the index then comes from `parseInt(identifier, 10)`.  Otherwise
the identifier is tried as an exact `idToIndex` key; if that is falsy,
`Object.keys(idToIndex).find((id) => id.startsWith(identifier) &&
identifier.length >= 8)` is tried; a still-falsy target returns null. -/
def findEmailByIdentifier (identifier : String) (emails : List Email) (mapping : Mapping) :
    Option FoundEmail :=
  if jsNumberInteger identifier then
    findByTarget (jsParseInt10 identifier) emails
  else
    let exact := lookupStr mapping.idToIndex identifier
    let target : Option Nat :=
      match exact with
      | some i =>
        if i = 0 then
          match (mapping.idToIndex.map (·.1)).find?
              (fun mid => jsStartsWith mid identifier && decide (8 ≤ identifier.length)) with
          | some matchingId => lookupStr mapping.idToIndex matchingId
          | none => exact
        else exact
      | none =>
        match (mapping.idToIndex.map (·.1)).find?
            (fun mid => jsStartsWith mid identifier && decide (8 ≤ identifier.length)) with
        | some matchingId => lookupStr mapping.idToIndex matchingId
        | none => exact
    match target with
    | some i => if i = 0 then none else findByTarget (some (i : Int)) emails
    | none => none

/-- The result of `resolveEmailIdentifier`: a typed success or a typed
failure carrying a message, never a thrown fault. -/
inductive ResolveOutcome where
  | success (email : Email) (index : Int) (uniqueId : Option String)
  | failure (error : String)
deriving DecidableEq

/-- `resolveEmailIdentifier` from src/utils/emailIdManager.js.  The
`emails.json` file is passed in explicitly (`none` models a missing
file, in which case the source returns the "No emails found" failure
before reading anything else); the mapping file is loaded through
`loadEmailIdMapping`. -/
def resolveEmailIdentifier (identifier : String) (emailsFile : Option (List Email))
    (mappingFile : MappingFile) : ResolveOutcome :=
  match emailsFile with
  | none => .failure "No emails found. Run \"emailmaster fetch\" first."
  | some emails =>
    match findEmailByIdentifier identifier emails (loadEmailIdMapping mappingFile) with
    | none =>
      .failure ("Email not found: " ++ identifier ++
        ". Use \"emailmaster list\" to see available emails.")
    | some result => .success result.email result.index result.uniqueId

theorem matchIndex_none (e : Email) : matchIndex none e = false := by
  rcases h : e.assignedIndex with _ | i <;> simp [matchIndex, h]

theorem find?_congr_pred {α : Type} {p q : α → Bool} :
    ∀ l : List α, (∀ x ∈ l, p x = q x) → l.find? p = l.find? q := by
  intro l
  induction l with
  | nil => intro _; rfl
  | cons a t ih =>
    intro h
    have ha := h a (List.mem_cons_self _ _)
    by_cases hp : p a = true
    · rw [List.find?_cons_of_pos _ hp, List.find?_cons_of_pos _ (ha ▸ hp)]
    · rw [List.find?_cons_of_neg _ hp, List.find?_cons_of_neg _ (ha ▸ hp)]
      exact ih (fun x hx => h x (List.mem_cons_of_mem _ hx))

/-- C6 counterexample.  The claim reads "a token that parses as an
integer resolves directly as an assignedIndex (returning the email
whose assignedIndex equals it)".  The token `"1e2"` parses as the
integer 100 (`Number("1e2") === 100`, an integer, so the numeric branch
is taken), an email with `assignedIndex` 100 is present, yet the
resolver returns null, because the branch reads the index with
`parseInt("1e2", 10) = 1`. -/
theorem claim_C6_counterexample :
    jsNumberIntValue "1e2" = some 100 ∧
    jsNumberInteger "1e2" = true ∧
    jsParseInt10 "1e2" = some 1 ∧
    ({ id := some "g100", assignedIndex := some 100 } : Email).assignedIndex = some 100 ∧
    findEmailByIdentifier "1e2"
      [{ id := some "g100", assignedIndex := some 100 }] emptyMapping = none :=
  ⟨by decide, by decide, by decide, rfl, by decide⟩

/-- C6 amended.  The resolver cascade, with the one correction the
counterexample forces: on a token passing the JS integer test the index
looked up is `parseInt(token, 10)` (which equals the token's integer
value for plain decimal tokens but not for exponent or hex notations).
Otherwise: exact `idToIndex` match first; then, only when the token has
length ≥ 8, a prefix match on the first matching key; a token shorter
than 8 characters that is only a prefix resolves to not-found, and a
token matching nothing resolves to not-found. -/
theorem claim_C6_amended :
    (∀ (tok : String) (emails : List Email) (m : Mapping) (v : Int),
      jsNumberInteger tok = true → jsParseInt10 tok = some v →
      (∃ e ∈ emails, matchIndex (some v) e = true) →
      ∃ r, findEmailByIdentifier tok emails m = some r ∧ r.index = v ∧
        r.email ∈ emails ∧ matchIndex (some v) r.email = true) ∧
    (∀ (tok : String) (emails : List Email) (m : Mapping) (v : Int),
      jsNumberInteger tok = true → jsParseInt10 tok = some v →
      (∀ e ∈ emails, matchIndex (some v) e = false) →
      findEmailByIdentifier tok emails m = none) ∧
    (∀ (tok : String) (emails : List Email) (m : Mapping),
      jsNumberInteger tok = true → jsParseInt10 tok = none →
      findEmailByIdentifier tok emails m = none) ∧
    (∀ (tok : String) (emails : List Email) (m : Mapping) (i : Nat),
      jsNumberInteger tok = false → lookupStr m.idToIndex tok = some i → i ≠ 0 →
      findEmailByIdentifier tok emails m = findByTarget (some (i : Int)) emails) ∧
    (∀ (tok : String) (emails : List Email) (m : Mapping),
      jsNumberInteger tok = false → lookupStr m.idToIndex tok = none →
      tok.length < 8 →
      findEmailByIdentifier tok emails m = none) ∧
    (∀ (tok : String) (emails : List Email) (m : Mapping) (key : String) (i : Nat),
      jsNumberInteger tok = false → lookupStr m.idToIndex tok = none →
      8 ≤ tok.length →
      (m.idToIndex.map (·.1)).find? (fun mid => jsStartsWith mid tok) = some key →
      lookupStr m.idToIndex key = some i → i ≠ 0 →
      findEmailByIdentifier tok emails m = findByTarget (some (i : Int)) emails) ∧
    (∀ (tok : String) (emails : List Email) (m : Mapping),
      jsNumberInteger tok = false → lookupStr m.idToIndex tok = none →
      (∀ key ∈ m.idToIndex.map (·.1), jsStartsWith key tok = false) →
      findEmailByIdentifier tok emails m = none) := by
  refine ⟨?_, ?_, ?_, ?_, ?_, ?_, ?_⟩
  · intro tok emails m v h1 h2 h3
    obtain ⟨e, he, hme⟩ := h3
    rw [findEmailByIdentifier, if_pos h1, h2]
    rw [findByTarget]
    have hsome : (emails.find? (matchIndex (some v))).isSome := by
      rw [List.find?_isSome]
      exact ⟨e, he, hme⟩
    obtain ⟨e', he'⟩ := Option.isSome_iff_exists.mp hsome
    rw [he']
    exact ⟨_, rfl, rfl, List.mem_of_find?_eq_some he', List.find?_some he'⟩
  · intro tok emails m v h1 h2 h3
    rw [findEmailByIdentifier, if_pos h1, h2, findByTarget]
    rw [List.find?_eq_none.mpr (fun x hx => by rw [h3 x hx]; exact Bool.noConfusion)]
  · intro tok emails m h1 h2
    rw [findEmailByIdentifier, if_pos h1, h2, findByTarget]
    have hnone : emails.find? (matchIndex none) = none :=
      List.find?_eq_none.mpr (fun x hx hmx => by
        rw [matchIndex_none x] at hmx
        exact Bool.noConfusion hmx)
    rw [hnone]
  · intro tok emails m i h1 h2 h3
    rw [findEmailByIdentifier, if_neg (by rw [h1]; exact Bool.noConfusion)]
    simp only [h2, if_neg h3]
  · intro tok emails m h1 h2 h3
    rw [findEmailByIdentifier, if_neg (by rw [h1]; exact Bool.noConfusion)]
    have hdec : decide (8 ≤ tok.length) = false := by
      rw [decide_eq_false_iff_not]
      omega
    simp only [h2, hdec, Bool.and_false]
    rw [List.find?_eq_none.mpr (fun x hx => by exact Bool.noConfusion)]
  · intro tok emails m key i h1 h2 h8 hfind hkey h0
    rw [findEmailByIdentifier, if_neg (by rw [h1]; exact Bool.noConfusion)]
    have hdec : decide (8 ≤ tok.length) = true := decide_eq_true h8
    have hcongr : (m.idToIndex.map (·.1)).find?
        (fun mid => jsStartsWith mid tok && decide (8 ≤ tok.length)) =
        (m.idToIndex.map (·.1)).find? (fun mid => jsStartsWith mid tok) :=
      find?_congr_pred _ (fun x _ => by rw [hdec, Bool.and_true])
    simp only [h2, hcongr, hfind, hkey, if_neg h0]
  · intro tok emails m h1 h2 h3
    rw [findEmailByIdentifier, if_neg (by rw [h1]; exact Bool.noConfusion)]
    have hnone : (m.idToIndex.map (·.1)).find?
        (fun mid => jsStartsWith mid tok && decide (8 ≤ tok.length)) = none := by
      rw [List.find?_eq_none]
      intro x hx hmx
      rw [h3 x hx] at hmx
      exact Bool.noConfusion hmx
    simp only [h2, hnone]

/-- Witness for the amended C6 at the spec's example scenario: token
`"2"` resolves through the numeric branch to the email with
assignedIndex 2, and token `"aaaa"` (4-character prefix of a key) is
not found. -/
theorem claim_C6_amended_witness :
    (jsNumberInteger "2" = true ∧ jsParseInt10 "2" = some 2 ∧
      (∃ r, findEmailByIdentifier "2"
          [{ uniqueId := some "aaaa1111bbbb", assignedIndex := some 1 },
           { uniqueId := some "ccc2222", assignedIndex := some 2 }]
          { indexToId := [(1, "aaaa1111bbbb"), (2, "ccc2222")]
            idToIndex := [("aaaa1111bbbb", 1), ("ccc2222", 2)]
            nextIndex := 3 } = some r ∧ r.index = 2 ∧
        r.email ∈ [({ uniqueId := some "aaaa1111bbbb", assignedIndex := some 1 } : Email),
           { uniqueId := some "ccc2222", assignedIndex := some 2 }] ∧
        matchIndex (some 2) r.email = true)) ∧
    (jsNumberInteger "aaaa" = false ∧
      findEmailByIdentifier "aaaa"
        [{ uniqueId := some "aaaa1111bbbb", assignedIndex := some 1 },
         { uniqueId := some "ccc2222", assignedIndex := some 2 }]
        { indexToId := [(1, "aaaa1111bbbb"), (2, "ccc2222")]
          idToIndex := [("aaaa1111bbbb", 1), ("ccc2222", 2)]
          nextIndex := 3 } = none) :=
  ⟨⟨by decide, by decide,
    claim_C6_amended.1 "2"
      [{ uniqueId := some "aaaa1111bbbb", assignedIndex := some 1 },
       { uniqueId := some "ccc2222", assignedIndex := some 2 }]
      { indexToId := [(1, "aaaa1111bbbb"), (2, "ccc2222")]
        idToIndex := [("aaaa1111bbbb", 1), ("ccc2222", 2)]
        nextIndex := 3 } 2 (by decide) (by decide)
      ⟨{ uniqueId := some "ccc2222", assignedIndex := some 2 },
        List.mem_cons_of_mem _ (List.mem_cons_self _ _), by decide⟩⟩,
   ⟨by decide,
    claim_C6_amended.2.2.2.2.1 "aaaa"
      [{ uniqueId := some "aaaa1111bbbb", assignedIndex := some 1 },
       { uniqueId := some "ccc2222", assignedIndex := some 2 }]
      { indexToId := [(1, "aaaa1111bbbb"), (2, "ccc2222")]
        idToIndex := [("aaaa1111bbbb", 1), ("ccc2222", 2)]
        nextIndex := 3 } (by decide) (by decide) (by decide)⟩⟩

/-- C7.  Resolution miss is a typed failure: `resolveEmailIdentifier`
always returns one of the two result shapes (the pure model is total —
nothing is thrown); a missing cache file or an identifier matching
nothing yields `{success: false, error: message}`, and a hit yields
`{success: true, email, index, uniqueId}`. -/
theorem claim_C7 (identifier : String) (emailsFile : Option (List Email))
    (mappingFile : MappingFile) :
    ((∃ msg, resolveEmailIdentifier identifier emailsFile mappingFile = .failure msg) ∨
     (∃ e i u, resolveEmailIdentifier identifier emailsFile mappingFile = .success e i u)) ∧
    (emailsFile = none → resolveEmailIdentifier identifier emailsFile mappingFile =
      .failure "No emails found. Run \"emailmaster fetch\" first.") ∧
    (∀ emails, emailsFile = some emails →
      findEmailByIdentifier identifier emails (loadEmailIdMapping mappingFile) = none →
      resolveEmailIdentifier identifier emailsFile mappingFile =
        .failure ("Email not found: " ++ identifier ++
          ". Use \"emailmaster list\" to see available emails.")) ∧
    (∀ emails r, emailsFile = some emails →
      findEmailByIdentifier identifier emails (loadEmailIdMapping mappingFile) = some r →
      resolveEmailIdentifier identifier emailsFile mappingFile =
        .success r.email r.index r.uniqueId) := by
  refine ⟨?_, ?_, ?_, ?_⟩
  · cases emailsFile with
    | none => exact Or.inl ⟨_, rfl⟩
    | some emails =>
      rcases hf : findEmailByIdentifier identifier emails (loadEmailIdMapping mappingFile)
        with _ | r
      · exact Or.inl ⟨_, by rw [resolveEmailIdentifier, hf]⟩
      · exact Or.inr ⟨r.email, r.index, r.uniqueId, by rw [resolveEmailIdentifier, hf]⟩
  · intro h
    subst h
    rfl
  · intro emails h hf
    subst h
    rw [resolveEmailIdentifier, hf]
  · intro emails r h hf
    subst h
    rw [resolveEmailIdentifier, hf]

/-- Witness for C7: a missing cache file and an identifier matching
nothing both produce failure results, and a matching identifier
produces the success shape, at concrete inputs. -/
theorem claim_C7_witness :
    ((none : Option (List Email)) = none →
      resolveEmailIdentifier "zzzz" none .missing =
        .failure "No emails found. Run \"emailmaster fetch\" first.") ∧
    (findEmailByIdentifier "zzzz" [{ uniqueId := some "ccc2222", assignedIndex := some 2 }]
        (loadEmailIdMapping
          (.ok { indexToId := [(2, "ccc2222")], idToIndex := [("ccc2222", 2)], nextIndex := 3 })) =
        none ∧
      resolveEmailIdentifier "zzzz"
        (some [{ uniqueId := some "ccc2222", assignedIndex := some 2 }])
        (.ok { indexToId := [(2, "ccc2222")], idToIndex := [("ccc2222", 2)], nextIndex := 3 }) =
        .failure ("Email not found: " ++ "zzzz" ++
          ". Use \"emailmaster list\" to see available emails.")) :=
  ⟨fun h => (claim_C7 "zzzz" none .missing).2.1 h,
   ⟨by decide,
    (claim_C7 "zzzz" (some [{ uniqueId := some "ccc2222", assignedIndex := some 2 }])
      (.ok { indexToId := [(2, "ccc2222")], idToIndex := [("ccc2222", 2)], nextIndex := 3 })).2.2.1
      [{ uniqueId := some "ccc2222", assignedIndex := some 2 }] rfl (by decide)⟩⟩

/-! ### The fetch pipeline: sort and merge -/

/-- One insertion step of a stable descending sort by `date`.  The
source sorts with the comparator `(a, b) => new Date(b.date) - new
Date(a.date)`; `Array.prototype.sort` is stable, and every stable sort
under a consistent comparator produces the same list, so an insertion
sort represents it exactly. -/
def insertDateDesc (e : Email) : List Email → List Email
  | [] => [e]
  | x :: xs => if e.date < x.date then x :: insertDateDesc e xs else e :: x :: xs

/-- `newEmails.sort((a, b) => new Date(b.date) - new Date(a.date))`:
stable sort, newest (largest `date`) first. -/
def sortByDateDesc (l : List Email) : List Email := l.foldr insertDateDesc []

theorem insertDateDesc_perm (e : Email) (l : List Email) :
    (insertDateDesc e l).Perm (e :: l) := by
  induction l with
  | nil => exact List.Perm.refl _
  | cons x xs ih =>
    rw [insertDateDesc]
    by_cases h : e.date < x.date
    · rw [if_pos h]
      exact (ih.cons x).trans (List.Perm.swap e x xs)
    · rw [if_neg h]

theorem sortByDateDesc_perm (l : List Email) : (sortByDateDesc l).Perm l := by
  induction l with
  | nil => exact List.Perm.refl _
  | cons x xs ih =>
    rw [sortByDateDesc, List.foldr_cons]
    exact (insertDateDesc_perm x _).trans (ih.cons x)

theorem insertDateDesc_sorted (e : Email) (l : List Email)
    (h : l.Pairwise (fun a b => b.date ≤ a.date)) :
    (insertDateDesc e l).Pairwise (fun a b => b.date ≤ a.date) := by
  induction l with
  | nil => simp [insertDateDesc]
  | cons x xs ih =>
    rw [insertDateDesc]
    rw [List.pairwise_cons] at h
    by_cases hc : e.date < x.date
    · rw [if_pos hc]
      rw [List.pairwise_cons]
      refine ⟨?_, ih h.2⟩
      intro b hb
      have hb' := (insertDateDesc_perm e xs).mem_iff.mp hb
      rcases List.mem_cons.mp hb' with hb' | hb'
      · subst hb'
        omega
      · exact h.1 b hb'
    · rw [if_neg hc]
      rw [List.pairwise_cons]
      constructor
      · intro b hb
        rcases List.mem_cons.mp hb with hb | hb
        · subst hb
          omega
        · have hx : b.date ≤ x.date := h.1 b hb
          omega
      · rw [List.pairwise_cons]
        exact h

theorem sortByDateDesc_sorted (l : List Email) :
    (sortByDateDesc l).Pairwise (fun a b => b.date ≤ a.date) := by
  induction l with
  | nil => simp [sortByDateDesc]
  | cons x xs ih =>
    rw [sortByDateDesc, List.foldr_cons]
    exact insertDateDesc_sorted x _ ih

/-- The merge step of `fetchEmails` (src/utils/emailFetcher.js): sort
the new batch by date descending (in place, before the id set is
built), collect the new ids (`new Set(newEmails.map((email) =>
email.id))`), drop cached emails whose id is in that set, and
concatenate `[...newEmails, ...uniqueCachedEmails]`. -/
def mergeEmails (newEmails cached : List Email) : List Email :=
  let sorted := sortByDateDesc newEmails
  let newIds := sorted.map (·.id)
  sorted ++ cached.filter (fun e => !(newIds.contains e.id))

theorem contains_eq_decide_mem (l : List (Option String)) (a : Option String) :
    l.contains a = decide (a ∈ l) := by
  induction l with
  | nil => rfl
  | cons x t ih =>
    by_cases h : a = x
    · subst h
      simp
    · simp [h]

theorem countP_id_eq_one (l : List Email) (i : Option String)
    (hnd : (l.map (·.id)).Nodup) (hin : i ∈ l.map (·.id)) :
    l.countP (fun e => e.id == i) = 1 := by
  induction l with
  | nil => simp at hin
  | cons e t ih =>
    rw [List.map_cons, List.nodup_cons] at hnd
    rw [List.map_cons, List.mem_cons] at hin
    rw [List.countP_cons]
    rcases hin with hin | hin
    · have hz : t.countP (fun x => x.id == i) = 0 := by
        rw [List.countP_eq_zero]
        intro a ha hai
        have haid : a.id = i := eq_of_beq hai
        exact hnd.1 (by rw [← hin, ← haid]; exact List.mem_map_of_mem _ ha)
      have hq : (e.id == i) = true := beq_iff_eq.mpr hin.symm
      rw [hz, hq]
      simp
    · have hne : (e.id == i) = false := by
        rw [beq_eq_false_iff_ne]
        intro hcc
        exact hnd.1 (hcc ▸ hin)
      rw [hne, ih hnd.2 hin]
      simp

/-- C4.  Merge without duplication: the merged list is the new messages
sorted newest-first by date, followed by exactly those cached emails
whose provider-native id does not appear among the new messages, in
their prior cache order; for any id present in both (with the new ids
pairwise distinct) the result contains exactly one record for that id,
and it comes from the new batch; deduplication is by the `id` field. -/
theorem claim_C4 (newEmails cached : List Email) :
    (mergeEmails newEmails cached =
      sortByDateDesc newEmails ++
        cached.filter (fun e => decide (e.id ∉ newEmails.map (·.id)))) ∧
    ((sortByDateDesc newEmails).Perm newEmails ∧
      (sortByDateDesc newEmails).Pairwise (fun a b => b.date ≤ a.date)) ∧
    (∀ c ∈ cached, c.id ∉ newEmails.map (·.id) → c ∈ mergeEmails newEmails cached) ∧
    ((newEmails.map (·.id)).Nodup →
      ∀ i, i ∈ newEmails.map (·.id) → i ∈ cached.map (·.id) →
        (mergeEmails newEmails cached).countP (fun e => e.id == i) = 1 ∧
        (∀ e ∈ mergeEmails newEmails cached, e.id = i → e ∈ newEmails)) := by
  have hperm := sortByDateDesc_perm newEmails
  have hids : ∀ x : Option String,
      ((sortByDateDesc newEmails).map (·.id)).contains x =
        decide (x ∈ newEmails.map (·.id)) := by
    intro x
    rw [contains_eq_decide_mem, decide_eq_decide]
    exact (hperm.map (·.id)).mem_iff
  have hpred : ∀ e : Email,
      (!(((sortByDateDesc newEmails).map (·.id)).contains e.id)) =
        decide (e.id ∉ newEmails.map (·.id)) := by
    intro e
    rw [hids e.id, decide_not]
  refine ⟨?_, ⟨hperm, sortByDateDesc_sorted newEmails⟩, ?_, ?_⟩
  · simp only [mergeEmails]
    congr 1
    exact List.filter_congr (fun e _ => hpred e)
  · intro c hc hnot
    simp only [mergeEmails]
    refine List.mem_append_right _ (List.mem_filter.mpr ⟨hc, ?_⟩)
    rw [hpred c]
    exact decide_eq_true hnot
  · intro hnd i hin hic
    constructor
    · simp only [mergeEmails, List.countP_append]
      have h1 : (sortByDateDesc newEmails).countP (fun e => e.id == i) = 1 := by
        rw [hperm.countP_eq]
        exact countP_id_eq_one newEmails i hnd hin
      have h2 : (cached.filter
          (fun e => !(((sortByDateDesc newEmails).map (·.id)).contains e.id))).countP
            (fun e => e.id == i) = 0 := by
        rw [List.countP_eq_zero]
        intro a ha hai
        have hmf := List.mem_filter.mp ha
        have haid : a.id = i := eq_of_beq hai
        have hmem := hmf.2
        rw [hpred a, haid] at hmem
        exact absurd hin (of_decide_eq_true hmem)
      rw [h1, h2]
    · intro e he hei
      simp only [mergeEmails] at he
      rcases List.mem_append.mp he with he | he
      · exact hperm.mem_iff.mp he
      · exfalso
        have hmf := List.mem_filter.mp he
        have hmem := hmf.2
        rw [hpred e, hei] at hmem
        exact absurd hin (of_decide_eq_true hmem)

/-- Witness for C4: two new messages (ids m2, m1, dates 9 and 5) merged
with a cache holding a stale m1 and an m3; the id m1 is in both, the
new ids are distinct, and the merged result has exactly one m1 record,
from the new batch. -/
theorem claim_C4_witness :
    (([{ id := some "m2", date := 9 }, { id := some "m1", date := 5 }] :
        List Email).map (·.id)).Nodup ∧
    some "m1" ∈ (([{ id := some "m2", date := 9 }, { id := some "m1", date := 5 }] :
        List Email).map (·.id)) ∧
    some "m1" ∈ (([{ id := some "m1", uniqueId := some "m1", assignedIndex := some 1 },
        { id := some "m3", uniqueId := some "m3", assignedIndex := some 2 }] :
        List Email).map (·.id)) ∧
    ((mergeEmails [{ id := some "m2", date := 9 }, { id := some "m1", date := 5 }]
        [{ id := some "m1", uniqueId := some "m1", assignedIndex := some 1 },
         { id := some "m3", uniqueId := some "m3", assignedIndex := some 2 }]).countP
        (fun e => e.id == some "m1") = 1 ∧
      (∀ e ∈ mergeEmails [{ id := some "m2", date := 9 }, { id := some "m1", date := 5 }]
          [{ id := some "m1", uniqueId := some "m1", assignedIndex := some 1 },
           { id := some "m3", uniqueId := some "m3", assignedIndex := some 2 }],
        e.id = some "m1" →
        e ∈ ([{ id := some "m2", date := 9 }, { id := some "m1", date := 5 }] :
          List Email))) :=
  ⟨by decide, by decide, by decide,
   (claim_C4 [{ id := some "m2", date := 9 }, { id := some "m1", date := 5 }]
      [{ id := some "m1", uniqueId := some "m1", assignedIndex := some 1 },
       { id := some "m3", uniqueId := some "m3", assignedIndex := some 2 }]).2.2.2
     (by decide) (some "m1") (by decide) (by decide)⟩

/-! ### The fetch cycle as a state transformer

`fetchEmails` (src/utils/emailFetcher.js) reads and writes three
persisted files.  They are modelled as an explicit `Files` state; the
Gmail listing and the per-message `messages.get` + `parseMessage`
outcomes, and the success of each `writeJson`, are inputs in a
`FetchEnv`.  A save that fails raises (the helpers re-`throw` after
logging), which the outer `catch` re-raises, so the model returns an
error and leaves the corresponding file unchanged. -/

/-- `cache_metadata.json`: the fetch watermark. -/
structure CacheMetadata where
  lastFetchedId : Option String := none
  lastFetchedTimestamp : Option Int := none
deriving DecidableEq

/-- The three persisted files (`none`/`missing` = file absent). -/
structure Files where
  metadataFile : Option CacheMetadata := none
  emailsFile : Option (List Email) := none
  mappingFile : MappingFile := .missing
deriving DecidableEq

/-- The environment of one fetch cycle: the listing outcome with the
per-message fetch/parse outcome for each listed message, and whether
each of the three `writeJson` calls succeeds. -/
structure FetchEnv where
  listResult : Except String (List (Except String Email))
  saveMetadataOk : Bool := true
  saveMappingOk : Bool := true
  saveEmailsOk : Bool := true

/-- `Promise.all` over the per-message fetch+parse results: the batch
succeeds only if every message does; a single rejection rejects the
whole batch (the source has no per-message try/catch). -/
def promiseAll : List (Except String Email) → Except String (List Email)
  | [] => .ok []
  | .ok e :: rest =>
    match promiseAll rest with
    | .ok es => .ok (e :: es)
    | .error err => .error err
  | .error err :: _ => .error err

/-- `fetchEmails` from src/utils/emailFetcher.js as a state
transformer on the persisted files, following the source order:
load cache, list messages; on zero messages run the cached set through
`updateEmailMapping` (which saves the mapping) and save the cache; on
new messages `Promise.all` the full fetches, sort by date descending,
save the watermark (before any merging), merge, run
`updateEmailMapping`, save the cache.  Error strings stand for the
exceptions the source logs and re-throws. -/
def fetchEmailsModel (hash : String → String) (env : FetchEnv) (fs : Files) :
    Except String (List Email) × Files :=
  let cachedEmails := fs.emailsFile.getD []
  match env.listResult with
  | .error e => (.error e, fs)
  | .ok messages =>
    if messages.length = 0 then
      let r := updateEmailMapping hash cachedEmails (loadEmailIdMapping fs.mappingFile)
      if env.saveMappingOk then
        let fs1 : Files := { fs with mappingFile := .ok r.2 }
        if env.saveEmailsOk then (.ok r.1, { fs1 with emailsFile := some r.1 })
        else (.error "Error saving emails to cache", fs1)
      else (.error "Error saving email ID mapping", fs)
    else
      match promiseAll messages with
      | .error e => (.error e, fs)
      | .ok newEmails =>
        if env.saveMetadataOk then
          let fs1 : Files :=
            match sortByDateDesc newEmails with
            | newest :: _ =>
              let md : CacheMetadata :=
                { lastFetchedId := newest.id, lastFetchedTimestamp := some newest.date }
              { fs with metadataFile := some md }
            | [] => fs
          let r := updateEmailMapping hash (mergeEmails newEmails cachedEmails)
            (loadEmailIdMapping fs1.mappingFile)
          if env.saveMappingOk then
            let fs2 : Files := { fs1 with mappingFile := .ok r.2 }
            if env.saveEmailsOk then (.ok r.1, { fs2 with emailsFile := some r.1 })
            else (.error "Error saving emails to cache", fs2)
          else (.error "Error saving email ID mapping", fs1)
        else (.error "Error saving cache metadata", fs)

theorem promiseAll_error (msgs : List (Except String Email)) (err : String)
    (hmem : Except.error err ∈ msgs) : ∃ e, promiseAll msgs = .error e := by
  induction msgs with
  | nil => simp at hmem
  | cons m rest ih =>
    match m with
    | .error e => exact ⟨e, rfl⟩
    | .ok a =>
      rcases List.mem_cons.mp hmem with h' | h'
      · exact absurd h' (fun hh => Except.noConfusion hh)
      · obtain ⟨e, he⟩ := ih h'
        refine ⟨e, ?_⟩
        rw [promiseAll, he]

/-- C5.  Merge idempotence: starting from the persisted state produced
by any successful `updateEmailMapping` run (cache = its annotated
output, mapping = its saved mapping), a `fetchEmails` cycle in which
the provider returns zero new messages passes the cached set through
the identity store again and leaves the persisted cache and mapping
content-identical — same records, same assignedIndex values. -/
theorem claim_C5 (hash : String → String) (l : List Email) (m₀ : Mapping)
    (d : Option CacheMetadata) (hWF : m₀.WF) :
    fetchEmailsModel hash { listResult := .ok [] }
      { metadataFile := d
        emailsFile := some (updateEmailMapping hash l m₀).1
        mappingFile := .ok (updateEmailMapping hash l m₀).2 } =
    (.ok (updateEmailMapping hash l m₀).1,
      { metadataFile := d
        emailsFile := some (updateEmailMapping hash l m₀).1
        mappingFile := .ok (updateEmailMapping hash l m₀).2 }) := by
  have hfix : updateEmailMapping hash (updateEmailMapping hash l m₀).1
      (updateEmailMapping hash l m₀).2 =
      ((updateEmailMapping hash l m₀).1, (updateEmailMapping hash l m₀).2) :=
    updateEmailMapping_fixed hash _ _
      (fun r hr => updateEmailMapping_out_spec hash l m₀ hWF r hr)
  simp only [fetchEmailsModel, loadEmailIdMapping, Option.getD_some, List.length_nil,
    if_true, hfix]

/-- Witness for C5 at a concrete input: one email fetched from the
empty mapping, then a zero-new-messages cycle. -/
theorem claim_C5_witness :
    emptyMapping.WF ∧
    fetchEmailsModel (fun s => s) { listResult := .ok [] }
      { metadataFile := none
        emailsFile := some (updateEmailMapping (fun s => s) [{ id := some "m1" }] emptyMapping).1
        mappingFile := .ok (updateEmailMapping (fun s => s) [{ id := some "m1" }] emptyMapping).2 } =
    (.ok (updateEmailMapping (fun s => s) [{ id := some "m1" }] emptyMapping).1,
      { metadataFile := none
        emailsFile := some (updateEmailMapping (fun s => s) [{ id := some "m1" }] emptyMapping).1
        mappingFile := .ok (updateEmailMapping (fun s => s) [{ id := some "m1" }] emptyMapping).2 }) :=
  ⟨by decide, claim_C5 (fun s => s) [{ id := some "m1" }] emptyMapping none (by decide)⟩

/-- C9 counterexample.  The claim says a single message failing to
fetch/parse is dropped and the fetch continues with the remaining
messages.  In the source the `Promise.all` over `messages.map` has no
per-message try/catch, so one failing message rejects the whole batch
and the outer catch re-throws: with two listed messages of which the
second fails, the whole cycle returns the error and no merged list. -/
theorem claim_C9_counterexample :
    fetchEmailsModel (fun s => s)
      { listResult := .ok [.ok { id := some "m1", date := 5 }, .error "parse failed"] }
      { metadataFile := none, emailsFile := none, mappingFile := .missing } =
    (.error "parse failed",
      { metadataFile := none, emailsFile := none, mappingFile := .missing }) := rfl

/-- C9 amended.  Per-message failure is not tolerated: whenever any
listed message's fetch/parse fails, the whole `fetchEmails` cycle
aborts with an error and the persisted files are left unchanged (no
partial batch is processed). -/
theorem claim_C9_amended (hash : String → String) (env : FetchEnv) (fs : Files)
    (msgs : List (Except String Email)) (err : String)
    (hlist : env.listResult = .ok msgs) (hmem : Except.error err ∈ msgs) :
    ∃ e, fetchEmailsModel hash env fs = (.error e, fs) := by
  obtain ⟨e, he⟩ := promiseAll_error msgs err hmem
  have hne : ¬ (msgs.length = 0) := by
    intro h0
    rw [List.length_eq_zero] at h0
    subst h0
    simp at hmem
  refine ⟨e, ?_⟩
  simp only [fetchEmailsModel, hlist, if_neg hne, he]

/-- Witness for the amended C9 at a concrete input. -/
theorem claim_C9_amended_witness :
    (FetchEnv.listResult
      { listResult := .ok [.ok { id := some "m1", date := 5 }, .error "parse failed"] } =
      .ok [.ok { id := some "m1", date := 5 }, .error "parse failed"]) ∧
    (Except.error "parse failed" ∈
      [Except.ok ({ id := some "m1", date := 5 } : Email), Except.error "parse failed"]) ∧
    ∃ e, fetchEmailsModel (fun s => s)
      { listResult := .ok [.ok { id := some "m1", date := 5 }, .error "parse failed"] }
      { metadataFile := none, emailsFile := none, mappingFile := .missing } =
      (.error e, { metadataFile := none, emailsFile := none, mappingFile := .missing }) :=
  ⟨rfl, List.mem_cons_of_mem _ (List.mem_cons_self _ _),
   claim_C9_amended (fun s => s) _ _ _ "parse failed" rfl
     (List.mem_cons_of_mem _ (List.mem_cons_self _ _))⟩

/-- C10 counterexample.  The claim says that when a step of the cycle
fails before the merged annotated set is produced, no persisted file is
overwritten, cache, mapping and watermark staying authoritative,
because saves happen only after all merging succeeds.  In the source
`saveCacheMetadata` runs before the merge and the identity-store save:
with one new message and a mapping save that fails (the annotated set
is never produced — `updateEmailMapping` throws from its save), the
cycle fails but the watermark file has already been overwritten; only
the email cache is untouched. -/
theorem claim_C10_counterexample :
    (fetchEmailsModel (fun s => s)
        { listResult := .ok [.ok { id := some "m1", date := 5 }], saveMappingOk := false }
        { metadataFile := none
          emailsFile := some [{ id := some "old", uniqueId := some "old", assignedIndex := some 1 }]
          mappingFile := .ok { indexToId := [(1, "old")], idToIndex := [("old", 1)], nextIndex := 2 } }).1 =
      .error "Error saving email ID mapping" ∧
    (fetchEmailsModel (fun s => s)
        { listResult := .ok [.ok { id := some "m1", date := 5 }], saveMappingOk := false }
        { metadataFile := none
          emailsFile := some [{ id := some "old", uniqueId := some "old", assignedIndex := some 1 }]
          mappingFile := .ok { indexToId := [(1, "old")], idToIndex := [("old", 1)], nextIndex := 2 } }).2.metadataFile =
      some { lastFetchedId := some "m1", lastFetchedTimestamp := some 5 } ∧
    (fetchEmailsModel (fun s => s)
        { listResult := .ok [.ok { id := some "m1", date := 5 }], saveMappingOk := false }
        { metadataFile := none
          emailsFile := some [{ id := some "old", uniqueId := some "old", assignedIndex := some 1 }]
          mappingFile := .ok { indexToId := [(1, "old")], idToIndex := [("old", 1)], nextIndex := 2 } }).2.emailsFile =
      some [{ id := some "old", uniqueId := some "old", assignedIndex := some 1 }] :=
  ⟨rfl, rfl, rfl⟩

/-- C10 amended.  Only the email cache enjoys all-or-nothing
behaviour: in every failing cycle `emails.json` is left unchanged, and
a cycle failing at the listing or at the per-message fetch stage leaves
all three files unchanged; but the watermark is saved before merging,
so later failures (mapping or cache save) can leave it updated. -/
theorem claim_C10_amended (hash : String → String) (env : FetchEnv) (fs : Files) :
    (∀ err fs', fetchEmailsModel hash env fs = (.error err, fs') →
      fs'.emailsFile = fs.emailsFile) ∧
    (∀ e, env.listResult = .error e → fetchEmailsModel hash env fs = (.error e, fs)) ∧
    (∀ msgs err, env.listResult = .ok msgs → promiseAll msgs = .error err →
      fetchEmailsModel hash env fs = (.error err, fs)) := by
  refine ⟨?_, ?_, ?_⟩
  · intro err fs' hre
    simp only [fetchEmailsModel] at hre
    repeat' split at hre
    all_goals
      first
      | (injection hre with h1 h2; exact Except.noConfusion h1)
      | (injection hre with h1 h2; subst h2; rfl)
  · intro e he
    simp only [fetchEmailsModel, he]
  · intro msgs err hlist hpa
    have hne : ¬ (msgs.length = 0) := by
      intro h0
      rw [List.length_eq_zero] at h0
      subst h0
      rw [promiseAll] at hpa
      exact Except.noConfusion hpa
    simp only [fetchEmailsModel, hlist, if_neg hne, hpa]

/-- Witness for the amended C10 at the counterexample input: the
failing cycle leaves the email cache unchanged. -/
theorem claim_C10_amended_witness :
    fetchEmailsModel (fun s => s)
      { listResult := .ok [.ok { id := some "m1", date := 5 }], saveMappingOk := false }
      { metadataFile := none
        emailsFile := some [{ id := some "old", uniqueId := some "old", assignedIndex := some 1 }]
        mappingFile := .ok { indexToId := [(1, "old")], idToIndex := [("old", 1)], nextIndex := 2 } } =
    (.error "Error saving email ID mapping",
      { metadataFile := some { lastFetchedId := some "m1", lastFetchedTimestamp := some 5 }
        emailsFile := some [{ id := some "old", uniqueId := some "old", assignedIndex := some 1 }]
        mappingFile := .ok { indexToId := [(1, "old")], idToIndex := [("old", 1)], nextIndex := 2 } }) ∧
    (Files.emailsFile
      { metadataFile := some { lastFetchedId := some "m1", lastFetchedTimestamp := some 5 }
        emailsFile := some [{ id := some "old", uniqueId := some "old", assignedIndex := some 1 }]
        mappingFile := .ok { indexToId := [(1, "old")], idToIndex := [("old", 1)], nextIndex := 2 } } =
      Files.emailsFile
      { metadataFile := none
        emailsFile := some [{ id := some "old", uniqueId := some "old", assignedIndex := some 1 }]
        mappingFile := .ok { indexToId := [(1, "old")], idToIndex := [("old", 1)], nextIndex := 2 } }) :=
  ⟨rfl,
   (claim_C10_amended (fun s => s)
      { listResult := .ok [.ok { id := some "m1", date := 5 }], saveMappingOk := false }
      { metadataFile := none
        emailsFile := some [{ id := some "old", uniqueId := some "old", assignedIndex := some 1 }]
        mappingFile := .ok { indexToId := [(1, "old")], idToIndex := [("old", 1)], nextIndex := 2 } }).1
     "Error saving email ID mapping"
     { metadataFile := some { lastFetchedId := some "m1", lastFetchedTimestamp := some 5 }
       emailsFile := some [{ id := some "old", uniqueId := some "old", assignedIndex := some 1 }]
       mappingFile := .ok { indexToId := [(1, "old")], idToIndex := [("old", 1)], nextIndex := 2 } }
     rfl⟩

end EmailMaster
